import Mathlib

/-!
Shallow embedding of the task-array range parser and task-count
arithmetic of package qstat (src/qstat/qstat.go).

Strings are modelled as `List Char`.  Go's `strings.Split` with a
single-character separator is modelled by `split`.  Go's
`strconv.ParseInt(s, 10, 64)` is modelled by `parseInt64 : List Char →
Option Int`: an optional leading sign, a nonempty run of ASCII digits,
and the signed-64-bit range check (net effect of Go's per-iteration
cutoff checks).  Go `int` on a 64-bit platform is `int64`, so the
`int(...)` conversions in the source are the identity and the record
fields are modelled as `Int`.
-/

deriving instance DecidableEq for Except

/-- Models Go `strings.Split(s, sep)` for a one-character separator:
splits around every occurrence of `sep`; the result is always nonempty,
and `split sep [] = [[]]` exactly as in Go. -/
def split (sep : Char) : List Char → List (List Char)
  | [] => [[]]
  | c :: cs =>
    if c = sep then [] :: split sep cs
    else
      match split sep cs with
      | [] => [[c]]
      | p :: ps => (c :: p) :: ps

/-- Value of a digit string, most significant digit first, as Go's
ParseInt accumulates it (`n = n*10 + d`). -/
def digitsVal (l : List Char) : Nat :=
  l.foldl (fun a c => 10 * a + (c.toNat - 48)) 0

/-- Digit phase of `strconv.ParseInt`: a nonempty run of ASCII digits
yields its value, anything else is a syntax error. -/
def parseDigits (l : List Char) : Option Nat :=
  if l ≠ [] ∧ l.all Char.isDigit then some (digitsVal l) else none

/-- Models `strconv.ParseInt(s, 10, 64)`: optional leading `+` or `-`
sign, nonempty digit run, and the signed 64-bit range check (ParseInt
returns ErrRange when the value does not fit; the caller in qstat.go
treats any error alike).  `none` models a non-nil error. -/
def parseInt64Core (neg : Bool) (digits : List Char) : Option Int :=
  match parseDigits digits with
  | none => none
  | some n =>
    let v : Int := if neg then -(n : Int) else (n : Int)
    if -(2 ^ 63) ≤ v ∧ v ≤ 2 ^ 63 - 1 then some v else none

def parseInt64 (l : List Char) : Option Int :=
  match l with
  | [] => parseInt64Core false []
  | c :: rest =>
    if c = '+' then parseInt64Core false rest
    else if c = '-' then parseInt64Core true rest
    else parseInt64Core false (c :: rest)

/-- A decimal numeral: a nonempty run of ASCII digits (the token shape
the spec's properties quantify over). -/
def Numeral (l : List Char) : Prop :=
  l ≠ [] ∧ l.all Char.isDigit

instance (l : List Char) : Decidable (Numeral l) :=
  instDecidableAnd

/-- Error kinds of `NewTaskIDRange`, one per distinct `fmt.Errorf`
message in the source; the `invalid*` kinds carry the offending token. -/
inductive ParseError where
  | invalidMin : List Char → ParseError
  | malformedRange : ParseError
  | malformedStep : ParseError
  | invalidStep : List Char → ParseError
  | invalidMax : List Char → ParseError
deriving DecidableEq, Repr

/-- Mirrors the struct `TaskIDRange` (fields RN_min, RN_max, RN_step). -/
structure TaskIDRange where
  Min : Int
  Max : Int
  Step : Int
deriving DecidableEq, Repr

/-- Models `TaskIDRange.NumTasks`, i.e.
`int(math.Ceil((max - min + 1) / step))` computed over float64 in the
source.  Here the quotient is taken exactly: `-((-a).fdiv b)` is the
ceiling of the rational `a / b` for `b ≠ 0`, which agrees with the
float64 computation whenever the float64 arithmetic is exact (in
particular on every magnitude exercised by the repository's tests). -/
def TaskIDRange.NumTasks (r : TaskIDRange) : Int :=
  -((-(r.Max - r.Min + 1)).fdiv r.Step)

/-- Models `NewTaskIDRange` line by line: empty string is the sentinel
`{1,1,1}`; otherwise split on `-`, parse min from the first part, then
check the part count, then split the second part on `:`, check that
count, parse step (when present) and then max. -/
def NewTaskIDRange (s : List Char) : Except ParseError TaskIDRange :=
  if s = [] then .ok ⟨1, 1, 1⟩
  else
    let parts := split '-' s
    match parseInt64 (parts.headD []) with
    | none => .error (.invalidMin (parts.headD []))
    | some mn =>
      if 2 < parts.length then .error .malformedRange
      else if parts.length = 2 then
        let tl := split ':' (parts.getD 1 [])
        if 2 < tl.length then .error .malformedStep
        else
          let stepRes : Except ParseError Int :=
            if tl.length = 2 then
              match parseInt64 (tl.getD 1 []) with
              | none => .error (.invalidStep (tl.getD 1 []))
              | some st => .ok st
            else .ok 1
          match stepRes with
          | .error e => .error e
          | .ok st =>
            match parseInt64 (tl.getD 0 []) with
            | none => .error (.invalidMax (tl.getD 0 []))
            | some mx => .ok ⟨mn, mx, st⟩
      else .ok ⟨mn, mn, 1⟩

/-- Loop body of `ParseTaskIDRanges`: parse each comma-separated
segment in order, returning the first error (the Go loop returns
`[]TaskIDRange{}, err` at the first failure, so no partial result
survives an error). -/
def parseRangeList : List (List Char) → Except ParseError (List TaskIDRange)
  | [] => .ok []
  | r :: rs =>
    match NewTaskIDRange r with
    | .error e => .error e
    | .ok range =>
      match parseRangeList rs with
      | .error e => .error e
      | .ok ranges => .ok (range :: ranges)

/-- Models `ParseTaskIDRanges`: split on `,` and parse every segment. -/
def ParseTaskIDRanges (s : List Char) : Except ParseError (List TaskIDRange) :=
  parseRangeList (split ',' s)

/-- The one field of the `QueueJob` record that its `NumTasks` method
reads: the free-text task summary string. -/
structure QueueJob where
  Tasks : List Char

/-- Models `QueueJob.NumTasks`: parse the Tasks string; on any error
fall back to 1; otherwise sum `NumTasks` over the ranges with the
accumulator loop of the source. -/
def QueueJob.NumTasks (j : QueueJob) : Int :=
  match ParseTaskIDRanges j.Tasks with
  | .error _ => 1
  | .ok rs => rs.foldl (fun n r => n + r.NumTasks) 0

/-- Splitting never yields the empty list of parts. -/
theorem split_ne_nil (sep : Char) (l : List Char) : split sep l ≠ [] := by
  induction l with
  | nil => simp [split]
  | cons c cs ih =>
    simp only [split]
    by_cases h : c = sep
    · simp [h]
    · simp only [if_neg h]
      cases hs : split sep cs with
      | nil => simp
      | cons p ps => simp

/-- A part list with no separator is returned whole. -/
theorem split_no_sep {sep : Char} {l : List Char} (h : sep ∉ l) :
    split sep l = [l] := by
  induction l with
  | nil => rfl
  | cons c cs ih =>
    simp only [List.mem_cons, not_or] at h
    have hcs : ¬c = sep := fun hc => h.1 hc.symm
    simp [split, hcs, ih h.2]

/-- Splitting an appended separator peels off the prefix as one part. -/
theorem split_sep_cons {sep : Char} (a b : List Char) (h : sep ∉ a) :
    split sep (a ++ sep :: b) = a :: split sep b := by
  induction a with
  | nil => simp [split]
  | cons c cs ih =>
    simp only [List.mem_cons, not_or] at h
    have hcs : ¬c = sep := fun hc => h.1 hc.symm
    simp only [List.cons_append, split, if_neg hcs, List.append_eq, ih h.2]

/-- Splitting a run of k separators yields k + 1 empty parts. -/
theorem split_replicate (sep : Char) (k : Nat) :
    split sep (List.replicate k sep) = List.replicate (k + 1) [] := by
  induction k with
  | zero => rfl
  | succ n ih => simp [List.replicate_succ, split, ih]

/-- Every character of a part of a split occurs in the original list. -/
theorem mem_of_mem_split {sep : Char} {c : Char} {l : List Char} :
    ∀ {a : List Char}, a ∈ split sep l → c ∈ a → c ∈ l := by
  induction l with
  | nil =>
    intro a ha hc
    simp [split] at ha
    subst ha
    simp at hc
  | cons d ds ih =>
    intro a ha hc
    simp only [split] at ha
    by_cases h : d = sep
    · rw [if_pos h] at ha
      rcases List.mem_cons.mp ha with h1 | h2
      · subst h1; simp at hc
      · exact List.mem_cons_of_mem _ (ih h2 hc)
    · rw [if_neg h] at ha
      cases hs : split sep ds with
      | nil => exact absurd hs (split_ne_nil sep ds)
      | cons p ps =>
        rw [hs] at ha
        rcases List.mem_cons.mp ha with h1 | h2
        · subst h1
          rcases List.mem_cons.mp hc with h3 | h4
          · subst h3; exact List.mem_cons_self _ _
          · exact List.mem_cons_of_mem _ (ih (hs ▸ List.mem_cons_self p ps) h4)
        · exact List.mem_cons_of_mem _ (ih (hs ▸ List.mem_cons_of_mem p h2) hc)

/-- A numeral contains no occurrence of a non-digit character. -/
theorem numeral_not_mem {l : List Char} {c : Char} (h : Numeral l)
    (hc : c.isDigit = false) : c ∉ l := by
  intro hmem
  have := List.all_eq_true.mp h.2 c hmem
  rw [hc] at this
  exact Bool.false_ne_true this

/-- On a numeral, the digit phase succeeds with the accumulated value. -/
theorem parseDigits_numeral {l : List Char} (h : Numeral l) :
    parseDigits l = some (digitsVal l) := by
  unfold parseDigits
  rw [if_pos ⟨h.1, h.2⟩]

/-- A numeral starts with a digit, hence not with a sign character. -/
theorem numeral_head_shape {l : List Char} (h : Numeral l) :
    ∃ c cs, l = c :: cs ∧ ¬c = '+' ∧ ¬c = '-' := by
  cases l with
  | nil => exact absurd rfl h.1
  | cons c cs =>
    refine ⟨c, cs, rfl, ?_, ?_⟩
    · intro hc
      have := List.all_eq_true.mp h.2 c (List.mem_cons_self c cs)
      rw [hc] at this
      exact absurd this (by decide)
    · intro hc
      have := List.all_eq_true.mp h.2 c (List.mem_cons_self c cs)
      rw [hc] at this
      exact absurd this (by decide)

/-- Core of ParseInt succeeds, unsigned case, on an in-range numeral. -/
theorem parseInt64Core_numeral {l : List Char} (h : Numeral l)
    (hv : digitsVal l ≤ 2 ^ 63 - 1) :
    parseInt64Core false l = some ((digitsVal l : Int)) := by
  unfold parseInt64Core
  rw [parseDigits_numeral h]
  simp only [Bool.false_eq_true, if_false]
  rw [if_pos ⟨by omega, by omega⟩]

/-- Core of ParseInt succeeds, negated case, on an in-range numeral. -/
theorem parseInt64Core_neg_numeral {l : List Char} (h : Numeral l)
    (hv : digitsVal l ≤ 2 ^ 63) :
    parseInt64Core true l = some (-(digitsVal l : Int)) := by
  unfold parseInt64Core
  rw [parseDigits_numeral h]
  simp only [if_true]
  rw [if_pos ⟨by omega, by omega⟩]

/-- ParseInt on an unsigned in-range numeral yields its value. -/
theorem parseInt64_numeral {l : List Char} (h : Numeral l)
    (hv : digitsVal l ≤ 2 ^ 63 - 1) :
    parseInt64 l = some ((digitsVal l : Int)) := by
  obtain ⟨c, cs, hl, hp, hm⟩ := numeral_head_shape h
  subst hl
  simp only [parseInt64]
  rw [if_neg hp, if_neg hm]
  exact parseInt64Core_numeral h hv

/-- ParseInt on a plus-signed in-range numeral yields its value. -/
theorem parseInt64_plus {l : List Char} (h : Numeral l)
    (hv : digitsVal l ≤ 2 ^ 63 - 1) :
    parseInt64 ('+' :: l) = some ((digitsVal l : Int)) := by
  simp only [parseInt64]
  rw [if_pos trivial]
  exact parseInt64Core_numeral h hv

/-- ParseInt on a minus-signed in-range numeral yields its negation. -/
theorem parseInt64_minus {l : List Char} (h : Numeral l)
    (hv : digitsVal l ≤ 2 ^ 63) :
    parseInt64 ('-' :: l) = some (-(digitsVal l : Int)) := by
  simp only [parseInt64]
  rw [if_pos trivial]
  exact parseInt64Core_neg_numeral h hv

/-- The empty expression is the non-array sentinel. -/
theorem NewTaskIDRange_nil : NewTaskIDRange [] = .ok ⟨1, 1, 1⟩ := by decide

/-- Evaluation of the parser on a dash-free token that ParseInt accepts. -/
theorem NewTaskIDRange_no_dash {t : List Char} {v : Int} (ht : t ≠ [])
    (hd : ('-' : Char) ∉ t) (hp : parseInt64 t = some v) :
    NewTaskIDRange t = .ok ⟨v, v, 1⟩ := by
  unfold NewTaskIDRange
  rw [if_neg ht, split_no_sep hd]
  simp [hp]

/-- Evaluation of the parser on `a-b` with separator-free tokens. -/
theorem NewTaskIDRange_dash {a b : List Char} {va vb : Int}
    (hda : ('-' : Char) ∉ a) (hdb : ('-' : Char) ∉ b) (hcb : (':' : Char) ∉ b)
    (hpa : parseInt64 a = some va) (hpb : parseInt64 b = some vb) :
    NewTaskIDRange (a ++ '-' :: b) = .ok ⟨va, vb, 1⟩ := by
  unfold NewTaskIDRange
  rw [if_neg (by simp), split_sep_cons a b hda, split_no_sep hdb]
  simp [split_no_sep hcb, hpa, hpb]

/-- Evaluation of the parser on `a-m:st` with separator-free tokens. -/
theorem NewTaskIDRange_dash_colon {a m st : List Char} {va vm vs : Int}
    (hda : ('-' : Char) ∉ a) (hdm : ('-' : Char) ∉ m) (hcm : (':' : Char) ∉ m)
    (hdst : ('-' : Char) ∉ st) (hcst : (':' : Char) ∉ st)
    (hpa : parseInt64 a = some va) (hpm : parseInt64 m = some vm)
    (hpst : parseInt64 st = some vs) :
    NewTaskIDRange (a ++ '-' :: (m ++ ':' :: st)) = .ok ⟨va, vm, vs⟩ := by
  have hdtail : ('-' : Char) ∉ m ++ ':' :: st := by
    intro hmem
    rcases List.mem_append.mp hmem with h | h
    · exact hdm h
    · rcases List.mem_cons.mp h with h | h
      · exact absurd h (by decide)
      · exact hdst h
  unfold NewTaskIDRange
  rw [if_neg (by simp), split_sep_cons a _ hda, split_no_sep hdtail]
  simp [split_sep_cons m st hcm, split_no_sep hcst, hpa, hpm, hpst]

/-- A failing min token makes the whole parse fail first, whatever the
rest of the expression looks like. -/
theorem NewTaskIDRange_invalid_min {s : List Char} (hs : s ≠ [])
    (hp : parseInt64 ((split '-' s).headD []) = none) :
    NewTaskIDRange s = .error (.invalidMin ((split '-' s).headD [])) := by
  unfold NewTaskIDRange
  rw [if_neg hs]
  simp only [hp]

/-- On `a-m:st` with a parsable min, a failing step token is reported
before the max token is even looked at. -/
theorem NewTaskIDRange_invalid_step {a x y : List Char} {va : Int}
    (hda : ('-' : Char) ∉ a) (hdx : ('-' : Char) ∉ x) (hcx : (':' : Char) ∉ x)
    (hdy : ('-' : Char) ∉ y) (hcy : (':' : Char) ∉ y)
    (hpa : parseInt64 a = some va) (hpy : parseInt64 y = none) :
    NewTaskIDRange (a ++ '-' :: (x ++ ':' :: y)) = .error (.invalidStep y) := by
  have hdtail : ('-' : Char) ∉ x ++ ':' :: y := by
    intro hmem
    rcases List.mem_append.mp hmem with h | h
    · exact hdx h
    · rcases List.mem_cons.mp h with h | h
      · exact absurd h (by decide)
      · exact hdy h
  unfold NewTaskIDRange
  rw [if_neg (by simp), split_sep_cons a _ hda, split_no_sep hdtail]
  simp [split_sep_cons x y hcx, split_no_sep hcy, hpa, hpy]

/-- With a parsable min, three or more dash parts give MalformedRange. -/
theorem NewTaskIDRange_too_many_parts {s : List Char} {v : Int}
    (hp : parseInt64 ((split '-' s).headD []) = some v)
    (hl : 2 < (split '-' s).length) :
    NewTaskIDRange s = .error .malformedRange := by
  have hs : s ≠ [] := by
    intro h
    subst h
    simp [split] at hl
  unfold NewTaskIDRange
  rw [if_neg hs]
  simp only [hp]
  simp [hl]

/-- With a parsable min and exactly two dash parts, three or more colon
parts in the tail give MalformedStep. -/
theorem NewTaskIDRange_too_many_colons {s : List Char} {v : Int}
    (hp : parseInt64 ((split '-' s).headD []) = some v)
    (hl : (split '-' s).length = 2)
    (hc : 2 < (split ':' ((split '-' s).getD 1 [])).length) :
    NewTaskIDRange s = .error .malformedStep := by
  have hs : s ≠ [] := by
    intro h
    subst h
    simp [split] at hl
  unfold NewTaskIDRange
  rw [if_neg hs]
  simp only [hp, if_neg (show ¬2 < (split '-' s).length by omega), if_pos hl,
    if_pos hc]

/-- A successful parse of an expression with no colon has step 1. -/
theorem step_eq_one_of_no_colon {s : List Char} {r : TaskIDRange}
    (hc : (':' : Char) ∉ s) (h : NewTaskIDRange s = .ok r) : r.Step = 1 := by
  by_cases hs : s = []
  · subst hs
    rw [NewTaskIDRange_nil] at h
    injection h with h2
    rw [← h2]
  · unfold NewTaskIDRange at h
    rw [if_neg hs] at h
    cases hp : parseInt64 ((split '-' s).headD []) with
    | none =>
      simp only [hp] at h
      exact Except.noConfusion h
    | some mn =>
      simp only [hp] at h
      by_cases h2 : 2 < (split '-' s).length
      · rw [if_pos h2] at h
        exact Except.noConfusion h
      · rw [if_neg h2] at h
        by_cases h3 : (split '-' s).length = 2
        · rw [if_pos h3] at h
          have hmem : (split '-' s).getD 1 [] ∈ split '-' s := by
            obtain ⟨p0, p1, hsp⟩ := List.length_eq_two.mp h3
            rw [hsp]
            simp
          have hcol : (':' : Char) ∉ (split '-' s).getD 1 [] :=
            fun hin => hc (mem_of_mem_split hmem hin)
          rw [split_no_sep hcol] at h
          simp only [List.length_cons, List.length_nil] at h
          norm_num at h
          cases hmx : parseInt64 ((split '-' s)[1]?.getD []) with
          | none => rw [hmx] at h; exact Except.noConfusion h
          | some mx =>
            rw [hmx] at h
            injection h with h4
            rw [← h4]
        · rw [if_neg h3] at h
          injection h with h4
          rw [← h4]

/-- The segment parser succeeds exactly when every segment parses, and
then returns the parsed ranges pairwise in segment order. -/
theorem parseRangeList_ok_iff {l : List (List Char)} {rs : List TaskIDRange} :
    parseRangeList l = .ok rs ↔
      List.Forall₂ (fun seg r => NewTaskIDRange seg = .ok r) l rs := by
  induction l generalizing rs with
  | nil =>
    constructor
    · intro h
      have hrs : rs = [] := by simpa [parseRangeList] using h.symm
      subst hrs
      exact List.Forall₂.nil
    · intro h
      cases h
      rfl
  | cons r l' ih =>
    constructor
    · intro h
      simp only [parseRangeList] at h
      cases hr : NewTaskIDRange r with
      | error e =>
        rw [hr] at h
        exact Except.noConfusion h
      | ok range =>
        rw [hr] at h
        cases hl : parseRangeList l' with
        | error e =>
          rw [hl] at h
          exact Except.noConfusion h
        | ok ranges =>
          rw [hl] at h
          injection h with h2
          subst h2
          exact List.Forall₂.cons hr (ih.mp hl)
    · intro h
      cases h with
      | cons hr hf =>
        simp only [parseRangeList]
        rw [hr, ih.mpr hf]

/-- When all segments before a failing one succeed, the segment parser
returns exactly that segment's error. -/
theorem parseRangeList_error_of {a : List (List Char)} {seg : List Char}
    {b : List (List Char)} {e : ParseError}
    (hok : ∀ x ∈ a, ∃ r, NewTaskIDRange x = .ok r)
    (hseg : NewTaskIDRange seg = .error e) :
    parseRangeList (a ++ seg :: b) = .error e := by
  induction a with
  | nil => simp only [List.nil_append, parseRangeList, hseg]
  | cons x a' ih =>
    obtain ⟨r, hr⟩ := hok x (List.mem_cons_self x a')
    simp only [List.cons_append, parseRangeList, hr, List.append_eq,
      ih (fun y hy => hok y (List.mem_cons_of_mem x hy))]

/-- The segment parser fails with `e` exactly when some segment fails
with `e` and all segments before it succeed: the error of the first
failing segment is propagated unchanged. -/
theorem parseRangeList_error_iff {l : List (List Char)} {e : ParseError} :
    parseRangeList l = .error e ↔
      ∃ a seg b, l = a ++ seg :: b ∧
        (∀ x ∈ a, ∃ r, NewTaskIDRange x = .ok r) ∧
        NewTaskIDRange seg = .error e := by
  constructor
  · induction l with
    | nil =>
      intro h
      simp [parseRangeList] at h
    | cons r l' ih =>
      intro h
      simp only [parseRangeList] at h
      cases hr : NewTaskIDRange r with
      | error e2 =>
        rw [hr] at h
        injection h with h2
        subst h2
        exact ⟨[], r, l', rfl, by simp, hr⟩
      | ok range =>
        rw [hr] at h
        cases hl : parseRangeList l' with
        | error e2 =>
          rw [hl] at h
          injection h with h2
          subst h2
          obtain ⟨a, seg, b, hleq, hok, hseg⟩ := ih hl
          subst hleq
          refine ⟨r :: a, seg, b, rfl, ?_, hseg⟩
          intro x hx
          rcases List.mem_cons.mp hx with hx0 | hx'
          · subst hx0
            exact ⟨range, hr⟩
          · exact hok x hx'
        | ok ranges =>
          rw [hl] at h
          exact Except.noConfusion h
  · rintro ⟨a, seg, b, rfl, hok, hseg⟩
    exact parseRangeList_error_of hok hseg

/-- Failure of any member segment makes the segment parser fail. -/
theorem parseRangeList_error_of_mem {l : List (List Char)} {seg : List Char}
    {e : ParseError} (hmem : seg ∈ l) (hseg : NewTaskIDRange seg = .error e) :
    ∃ e2, parseRangeList l = .error e2 := by
  induction l with
  | nil => simp at hmem
  | cons r l' ih =>
    cases hr : NewTaskIDRange r with
    | error e2 =>
      refine ⟨e2, ?_⟩
      simp only [parseRangeList, hr]
    | ok range =>
      rcases List.mem_cons.mp hmem with h0 | h'
      · subst h0
        rw [hr] at hseg
        exact Except.noConfusion hseg
      · obtain ⟨e2, he2⟩ := ih h'
        refine ⟨e2, ?_⟩
        simp only [parseRangeList, hr, he2]

/-- The accumulator loop of `QueueJob.NumTasks` computes a sum. -/
theorem foldl_add_eq_sum {α : Type} (f : α → Int) (l : List α) (c : Int) :
    l.foldl (fun n r => n + f r) c = c + (l.map f).sum := by
  induction l generalizing c with
  | nil => simp
  | cons x xs ih =>
    rw [List.foldl_cons, ih, List.map_cons, List.sum_cons, add_assoc]

/-- C1 (counterexample): the claim quantifies over every decimal
numeral, but the 19-digit numeral 9223372036854775808 = 2^63 overflows
strconv.ParseInt's signed 64-bit range, so its parse fails with
InvalidMin instead of returning {N, N, 1}. -/
theorem parse_wellformed_counterexample :
    Numeral "9223372036854775808".data ∧
    NewTaskIDRange "9223372036854775808".data =
      .error (.invalidMin "9223372036854775808".data) := by decide

/-- C1 (amended): parse("") = {1,1,1}; and for decimal numerals N, M, S
whose values fit in a signed 64-bit integer, parse("N") = {N, N, 1},
parse("N-M") = {N, M, 1} and parse("N-M:S") = {N, M, S}. -/
theorem parse_wellformed_amended :
    NewTaskIDRange [] = .ok ⟨1, 1, 1⟩ ∧
    (∀ N, Numeral N → digitsVal N ≤ 2 ^ 63 - 1 →
        NewTaskIDRange N =
          .ok ⟨(digitsVal N : Int), (digitsVal N : Int), 1⟩) ∧
    (∀ N M, Numeral N → digitsVal N ≤ 2 ^ 63 - 1 →
        Numeral M → digitsVal M ≤ 2 ^ 63 - 1 →
        NewTaskIDRange (N ++ '-' :: M) =
          .ok ⟨(digitsVal N : Int), (digitsVal M : Int), 1⟩) ∧
    (∀ N M S, Numeral N → digitsVal N ≤ 2 ^ 63 - 1 →
        Numeral M → digitsVal M ≤ 2 ^ 63 - 1 →
        Numeral S → digitsVal S ≤ 2 ^ 63 - 1 →
        NewTaskIDRange (N ++ '-' :: (M ++ ':' :: S)) =
          .ok ⟨(digitsVal N : Int), (digitsVal M : Int), (digitsVal S : Int)⟩) := by
  refine ⟨by decide, ?_, ?_, ?_⟩
  · intro N hN hv
    exact NewTaskIDRange_no_dash hN.1 (numeral_not_mem hN (by decide))
      (parseInt64_numeral hN hv)
  · intro N M hN hvN hM hvM
    exact NewTaskIDRange_dash (numeral_not_mem hN (by decide))
      (numeral_not_mem hM (by decide)) (numeral_not_mem hM (by decide))
      (parseInt64_numeral hN hvN) (parseInt64_numeral hM hvM)
  · intro N M S hN hvN hM hvM hS hvS
    exact NewTaskIDRange_dash_colon (numeral_not_mem hN (by decide))
      (numeral_not_mem hM (by decide)) (numeral_not_mem hM (by decide))
      (numeral_not_mem hS (by decide)) (numeral_not_mem hS (by decide))
      (parseInt64_numeral hN hvN) (parseInt64_numeral hM hvM)
      (parseInt64_numeral hS hvS)

/-- C1 (witness): the amended theorem applied to the numerals of the
concrete expression 1-10:3. -/
theorem parse_wellformed_amended_witness :
    Numeral ['1'] ∧ digitsVal ['1'] ≤ 2 ^ 63 - 1 ∧
    Numeral ['1', '0'] ∧ digitsVal ['1', '0'] ≤ 2 ^ 63 - 1 ∧
    Numeral ['3'] ∧ digitsVal ['3'] ≤ 2 ^ 63 - 1 ∧
    NewTaskIDRange (['1'] ++ '-' :: (['1', '0'] ++ ':' :: ['3'])) =
      .ok ⟨(digitsVal ['1'] : Int), (digitsVal ['1', '0'] : Int),
           (digitsVal ['3'] : Int)⟩ :=
  ⟨by decide, by decide, by decide, by decide, by decide, by decide,
   parse_wellformed_amended.2.2.2 ['1'] ['1', '0'] ['3'] (by decide)
     (by decide) (by decide) (by decide) (by decide) (by decide)⟩

/-- C3: when every comma-separated segment of the Tasks string parses,
QueueJob.NumTasks is the sum of TaskIDRange.NumTasks over the parsed
segments (no deduplication of overlapping segments), and in particular
it is 6 on "6-8,1-3". -/
theorem numTasks_sums_segment_cardinalities :
    (∀ (t : List Char) (rs : List TaskIDRange),
        ParseTaskIDRanges t = .ok rs →
        QueueJob.NumTasks ⟨t⟩ = (rs.map TaskIDRange.NumTasks).sum) ∧
    QueueJob.NumTasks ⟨"6-8,1-3".data⟩ = 6 := by
  refine ⟨?_, by decide⟩
  intro t rs h
  simp only [QueueJob.NumTasks, h]
  rw [foldl_add_eq_sum, zero_add]

/-- C3 (witness): the sum theorem applied to "6-8,1-3". -/
theorem numTasks_sums_segment_cardinalities_witness :
    ParseTaskIDRanges "6-8,1-3".data = .ok [⟨6, 8, 1⟩, ⟨1, 3, 1⟩] ∧
    QueueJob.NumTasks ⟨"6-8,1-3".data⟩ =
      (([⟨6, 8, 1⟩, ⟨1, 3, 1⟩] : List TaskIDRange).map
        TaskIDRange.NumTasks).sum :=
  ⟨by decide, numTasks_sums_segment_cardinalities.1 _ _ (by decide)⟩

/-- C4 (counterexample): "x--1" splits on dash into three parts, yet the
parse fails with InvalidMin, not MalformedRange, because the min token
is parsed before the part count is checked. -/
theorem malformed_errors_counterexample :
    2 < (split '-' "x--1".data).length ∧
    NewTaskIDRange "x--1".data = .error (.invalidMin ['x']) ∧
    NewTaskIDRange "x--1".data ≠ .error .malformedRange := by decide

/-- C4 (amended): when the first dash-separated token parses as an
int64, more than two dash parts fail with MalformedRange, and with
exactly two dash parts a tail of more than two colon parts fails with
MalformedStep; in particular parse("1--10") and parse("1-10:3:4") fail
with those kinds. -/
theorem malformed_errors_amended :
    (∀ (s : List Char) (v : Int),
        parseInt64 ((split '-' s).headD []) = some v →
        2 < (split '-' s).length →
        NewTaskIDRange s = .error .malformedRange) ∧
    (∀ (s : List Char) (v : Int),
        parseInt64 ((split '-' s).headD []) = some v →
        (split '-' s).length = 2 →
        2 < (split ':' ((split '-' s).getD 1 [])).length →
        NewTaskIDRange s = .error .malformedStep) ∧
    NewTaskIDRange "1--10".data = .error .malformedRange ∧
    NewTaskIDRange "1-10:3:4".data = .error .malformedStep := by
  refine ⟨?_, ?_, by decide, by decide⟩
  · intro s v hp hl
    exact NewTaskIDRange_too_many_parts hp hl
  · intro s v hp hl hc
    exact NewTaskIDRange_too_many_colons hp hl hc

/-- C4 (witness): the amended theorem applied to "1--10". -/
theorem malformed_errors_amended_witness :
    parseInt64 ((split '-' "1--10".data).headD []) = some 1 ∧
    2 < (split '-' "1--10".data).length ∧
    NewTaskIDRange "1--10".data = .error .malformedRange :=
  ⟨by decide, by decide,
   malformed_errors_amended.1 "1--10".data 1 (by decide) (by decide)⟩

/-- C5: whenever any comma-separated segment of the Tasks string fails
to parse, QueueJob.NumTasks returns exactly 1 and never propagates the
error. -/
theorem numTasks_fallback_on_error :
    ∀ t : List Char,
      (∃ seg, seg ∈ split ',' t ∧ ∃ e, NewTaskIDRange seg = .error e) →
      QueueJob.NumTasks ⟨t⟩ = 1 := by
  rintro t ⟨seg, hmem, e, hseg⟩
  obtain ⟨e2, he2⟩ := parseRangeList_error_of_mem hmem hseg
  simp only [QueueJob.NumTasks, ParseTaskIDRanges, he2]

/-- C5 (witness): the fallback theorem applied to "not-a-range". -/
theorem numTasks_fallback_on_error_witness :
    (∃ seg, seg ∈ split ',' "not-a-range".data ∧
      ∃ e, NewTaskIDRange seg = .error e) ∧
    QueueJob.NumTasks ⟨"not-a-range".data⟩ = 1 :=
  ⟨⟨"not-a-range".data, by decide, ⟨.invalidMin ['n', 'o', 't'], by decide⟩⟩,
   numTasks_fallback_on_error "not-a-range".data
     ⟨"not-a-range".data, by decide, ⟨.invalidMin ['n', 'o', 't'], by decide⟩⟩⟩

/-- C6: ParseTaskIDRanges splits its input on the comma and parses each
segment independently; it succeeds exactly when all segments parse,
returning the ranges in segment order, and fails exactly with the error
of the first failing segment (propagated unchanged; the Except carries
no partial result on the error path). -/
theorem parseAll_order_and_first_error :
    (∀ s : List Char, ParseTaskIDRanges s = parseRangeList (split ',' s)) ∧
    (∀ (l : List (List Char)) (rs : List TaskIDRange),
        parseRangeList l = .ok rs ↔
          List.Forall₂ (fun seg r => NewTaskIDRange seg = .ok r) l rs) ∧
    (∀ (l : List (List Char)) (e : ParseError),
        parseRangeList l = .error e ↔
          ∃ a seg b, l = a ++ seg :: b ∧
            (∀ x ∈ a, ∃ r, NewTaskIDRange x = .ok r) ∧
            NewTaskIDRange seg = .error e) :=
  ⟨fun _ => rfl, fun _ _ => parseRangeList_ok_iff,
   fun _ _ => parseRangeList_error_iff⟩

/-- C7 (counterexample): parse("1-10:0") succeeds with step 0, so a
successful parse does not guarantee step >= 1. -/
theorem step_invariant_counterexample :
    NewTaskIDRange "1-10:0".data = .ok ⟨1, 10, 0⟩ ∧
    ¬(1 ≤ (TaskIDRange.mk 1 10 0).Step) := by decide

/-- C7 (amended): every TaskIDRange produced by a successful parse of an
expression with no explicit step token (no colon in the expression) has
step = 1, hence step >= 1; an explicit step token is stored unchecked
and may be zero or negative. -/
theorem step_invariant_amended :
    ∀ (s : List Char) (r : TaskIDRange),
      (':' : Char) ∉ s → NewTaskIDRange s = .ok r → r.Step = 1 :=
  fun _ _ hc h => step_eq_one_of_no_colon hc h

/-- C7 (witness): the amended theorem applied to "6-8". -/
theorem step_invariant_amended_witness :
    (':' : Char) ∉ "6-8".data ∧
    NewTaskIDRange "6-8".data = .ok ⟨6, 8, 1⟩ ∧
    (TaskIDRange.mk 6 8 1).Step = 1 :=
  ⟨by decide, by decide,
   step_invariant_amended "6-8".data ⟨6, 8, 1⟩ (by decide) (by decide)⟩

/-- C8 (counterexample): parse("-5") does not succeed with the signed
value; the dash is consumed as the range separator, the min token is
empty, and the parse fails with InvalidMin. -/
theorem signed_tokens_counterexample :
    NewTaskIDRange "-5".data = .error (.invalidMin []) ∧
    NewTaskIDRange "-5".data ≠ .ok ⟨-5, -5, 1⟩ := by decide

/-- C8 (amended): a minus-signed token never parses, because the dash is
taken as a range separator ("-5" fails with InvalidMin; "1-10:-3" and
"1--5" split into three dash parts and fail with MalformedRange); only a
plus sign is accepted by the numeric parser: parse("+N") = {N, N, 1} and
parse("N-M:+S") = {N, M, S} for in-range numerals. -/
theorem signed_tokens_amended :
    (∀ N, Numeral N → digitsVal N ≤ 2 ^ 63 - 1 →
        NewTaskIDRange ('+' :: N) =
          .ok ⟨(digitsVal N : Int), (digitsVal N : Int), 1⟩) ∧
    (∀ N M S, Numeral N → digitsVal N ≤ 2 ^ 63 - 1 →
        Numeral M → digitsVal M ≤ 2 ^ 63 - 1 →
        Numeral S → digitsVal S ≤ 2 ^ 63 - 1 →
        NewTaskIDRange (N ++ '-' :: (M ++ ':' :: '+' :: S)) =
          .ok ⟨(digitsVal N : Int), (digitsVal M : Int),
               (digitsVal S : Int)⟩) ∧
    NewTaskIDRange "1-10:-3".data = .error .malformedRange ∧
    NewTaskIDRange "1--5".data = .error .malformedRange := by
  refine ⟨?_, ?_, by decide, by decide⟩
  · intro N hN hv
    refine NewTaskIDRange_no_dash (by simp) ?_ (parseInt64_plus hN hv)
    intro hmem
    rcases List.mem_cons.mp hmem with h | h
    · exact absurd h (by decide)
    · exact numeral_not_mem hN (by decide) h
  · intro N M S hN hvN hM hvM hS hvS
    refine NewTaskIDRange_dash_colon (numeral_not_mem hN (by decide))
      (numeral_not_mem hM (by decide)) (numeral_not_mem hM (by decide))
      ?_ ?_ (parseInt64_numeral hN hvN) (parseInt64_numeral hM hvM)
      (parseInt64_plus hS hvS)
    · intro hmem
      rcases List.mem_cons.mp hmem with h | h
      · exact absurd h (by decide)
      · exact numeral_not_mem hS (by decide) h
    · intro hmem
      rcases List.mem_cons.mp hmem with h | h
      · exact absurd h (by decide)
      · exact numeral_not_mem hS (by decide) h

/-- C8 (witness): the amended theorem applied to "+5". -/
theorem signed_tokens_amended_witness :
    Numeral ['5'] ∧ digitsVal ['5'] ≤ 2 ^ 63 - 1 ∧
    NewTaskIDRange ('+' :: ['5']) =
      .ok ⟨(digitsVal ['5'] : Int), (digitsVal ['5'] : Int), 1⟩ :=
  ⟨by decide, by decide,
   signed_tokens_amended.1 ['5'] (by decide) (by decide)⟩

/-- C9: the empty segment is valid and denotes the sentinel {1,1,1}:
parse("") succeeds, a trailing comma as in "6-8," contributes one extra
sentinel range, and the Tasks string made of k commas alone counts
k + 1 tasks. -/
theorem empty_segments_sentinel :
    NewTaskIDRange [] = .ok ⟨1, 1, 1⟩ ∧
    ParseTaskIDRanges "6-8,".data = .ok [⟨6, 8, 1⟩, ⟨1, 1, 1⟩] ∧
    (∀ k : Nat, QueueJob.NumTasks ⟨List.replicate k ','⟩ = k + 1) := by
  refine ⟨by decide, by decide, ?_⟩
  intro k
  have hpl : ∀ m : Nat, parseRangeList (List.replicate m []) =
      .ok (List.replicate m (⟨1, 1, 1⟩ : TaskIDRange)) := by
    intro m
    induction m with
    | zero => rfl
    | succ n ih =>
      simp only [List.replicate_succ, parseRangeList, NewTaskIDRange_nil, ih]
  have h1 : TaskIDRange.NumTasks ⟨1, 1, 1⟩ = 1 := by decide
  simp only [QueueJob.NumTasks, ParseTaskIDRanges, split_replicate, hpl]
  rw [foldl_add_eq_sum, zero_add, List.map_replicate, h1, List.sum_replicate]
  simp

/-- C10: error-kind precedence: the min token is parsed before the dash
part count is checked, so a failing min on a three-part expression gives
InvalidMin rather than MalformedRange; and in the two-part form the step
token is parsed before the max token, so on "N-x:y" with both tail
tokens unparsable the error is InvalidStep rather than InvalidMax. -/
theorem error_kind_precedence :
    (∀ s : List Char, 2 < (split '-' s).length →
        parseInt64 ((split '-' s).headD []) = none →
        NewTaskIDRange s = .error (.invalidMin ((split '-' s).headD []))) ∧
    (∀ N x y : List Char, Numeral N → digitsVal N ≤ 2 ^ 63 - 1 →
        ('-' : Char) ∉ x → (':' : Char) ∉ x →
        ('-' : Char) ∉ y → (':' : Char) ∉ y →
        parseInt64 x = none → parseInt64 y = none →
        NewTaskIDRange (N ++ '-' :: (x ++ ':' :: y)) =
          .error (.invalidStep y)) := by
  constructor
  · intro s hl hp
    have hs : s ≠ [] := by
      intro h
      subst h
      simp [split] at hl
    exact NewTaskIDRange_invalid_min hs hp
  · intro N x y hN hv hdx hcx hdy hcy hpx hpy
    exact NewTaskIDRange_invalid_step (numeral_not_mem hN (by decide))
      hdx hcx hdy hcy (parseInt64_numeral hN hv) hpy

/-- C10 (witness): the precedence theorem applied to "x--1". -/
theorem error_kind_precedence_witness :
    2 < (split '-' "x--1".data).length ∧
    parseInt64 ((split '-' "x--1".data).headD []) = none ∧
    NewTaskIDRange "x--1".data =
      .error (.invalidMin ((split '-' "x--1".data).headD [])) :=
  ⟨by decide, by decide,
   error_kind_precedence.1 "x--1".data (by decide) (by decide)⟩
